import Mathlib

/-!
# Waterfall server: streaming-operation orchestration

A shallow embedding of `waterfall/server/server.go` (Push, Pull, Exec, Forward and
`chanWriter.Write`).  The handlers are translated statement by statement.  Every
collaborator they call (the RPC stream, the archiver, the OS pipe, the child
process, the dialer, the scheduler's select) is passed in as explicit data: the
results it hands back are fields of an environment record, and every call the
handler makes is recorded in the run it returns.
-/

namespace Waterfall

/-! ## Errors -/

/-- One byte of a payload. -/
abbrev Byte := Fin 256

/-- Status codes of the RPC transport (package `codes`). -/
inductive Code
  | OK
  | Unknown
  | InvalidArgument
  | NotFound
  | Unimplemented
  | Internal
  deriving DecidableEq, Repr

/-- Error numbers an OS call can fail with. -/
inductive Errno
  | ENOENT
  | EACCES
  | EPERM
  deriving DecidableEq, Repr

/-- Go `error` values the server handles: the two sentinel errors of package `io`,
an error built by `status.Error(code, msg)`, the `*os.PathError` an OS call such as
`os.Stat` fails with, and any other error (identified by its text). -/
inductive GoError
  | eof
  | closedPipe
  | status (code : Code) (msg : String)
  | pathError (op : String) (path : String) (errno : Errno)
  | other (msg : String)
  deriving DecidableEq, Repr

/-- Name of a status code, as printed in the text of a status error. -/
def Code.text : Code → String
  | .OK => "OK"
  | .Unknown => "Unknown"
  | .InvalidArgument => "InvalidArgument"
  | .NotFound => "NotFound"
  | .Unimplemented => "Unimplemented"
  | .Internal => "Internal"

/-- Text of an error number. -/
def Errno.text : Errno → String
  | .ENOENT => "no such file or directory"
  | .EACCES => "permission denied"
  | .EPERM => "operation not permitted"

/-- Method `err.Error()`: the text of an error. -/
def GoError.Error : GoError → String
  | .eof => "EOF"
  | .closedPipe => "io: read/write on closed pipe"
  | .status code msg => "rpc error: code = " ++ code.text ++ " desc = " ++ msg
  | .pathError op path errno => op ++ " " ++ path ++ ": " ++ errno.text
  | .other msg => msg

/-- Function `os.IsNotExist(err)`; `err` may be nil. -/
def IsNotExist : Option GoError → Bool
  | some (.pathError _ _ .ENOENT) => true
  | _ => false

/-- Function `status.Code(err)` of the transport: the code of a status error, `OK` for
nil, `Unknown` for every error that was not built by `status.Error`. -/
def statusCode : Option GoError → Code
  | none => .OK
  | some (.status c _) => c
  | some _ => .Unknown

/-- How a handler invocation ends: it returns an error value (nil is `none`), it
panics, or it never returns because a worker stays blocked. -/
inductive Outcome
  | returned (err : Option GoError)
  | panicked (msg : String)
  | blocked
  deriving DecidableEq, Repr

/-- Method `errgroup.Group.Wait` once every worker has returned: the first non-nil
error in the order in which the workers recorded their results. -/
def egWait : List (Option GoError) → Option GoError
  | [] => none
  | some e :: _ => some e
  | none :: rest => egWait rest

/-! ## Push -/

/-- Message `Transfer` of the Push and Pull streams. -/
structure Transfer where
  path : String := ""
  payload : List Byte := []
  success : Bool := false
  err : String := ""
  deriving DecidableEq, Repr

/-- Behaviour of `waterfall.Untar(r, path)` seen from the write side of the pipe.
`stops seen = some res`: after consuming the payloads `seen` the archiver returns by
itself with result `res`, which closes the read side, so that the next write fails.
`atEOF seen`: its result when it finds the end of its input after `seen`. -/
structure Archiver where
  stops : List (List Byte) → Option (Option GoError)
  atEOF : List (List Byte) → Option GoError

/-- Observable steps of one Push invocation, in the order they happen. -/
inductive PushEvent
  | write (p : List Byte)
  | writeFailed (p : List Byte) (e : GoError)
  | send (t : Transfer)
  | closeW
  | untarEOF
  | untarReturn (res : Option GoError)
  | closeR
  deriving DecidableEq, Repr

/-- Run of the two Push workers. -/
structure PushWorkers where
  events : List PushEvent
  drainRet : Option GoError
  untarRet : Option GoError
  deriving DecidableEq, Repr

/-- The two workers of Push.  The second argument is the consumed payloads, the
third the state of the drain loop: a non-empty list is `xfer` (its head) with
`err == nil`, the empty list is `err == ending`.  A write on the pipe succeeds
unless the read side is closed, which happens only when the archiver has returned;
it then fails with `io.ErrClosedPipe`.  The archiver finds the end of its input
only after the deferred `w.Close()` of the drain worker. -/
def pushWorkers (untar : Archiver) (sendRes : Option GoError) (ending : GoError) :
    List (List Byte) → List Transfer → PushWorkers
  | seen, [] =>
    let drain : List PushEvent × Option GoError :=
      if ending = .eof then
        ([.send { success := true }, .closeW], sendRes)
      else
        ([.closeW], some ending)
    match untar.stops seen with
    | some res => ⟨[.untarReturn res, .closeR] ++ drain.1, drain.2, res⟩
    | none =>
      ⟨drain.1 ++ [.untarEOF, .untarReturn (untar.atEOF seen), .closeR], drain.2,
        untar.atEOF seen⟩
  | seen, xfer :: rest =>
    match untar.stops seen with
    | some res =>
      ⟨[.untarReturn res, .closeR, .writeFailed xfer.payload .closedPipe,
        .send { success := false, err := GoError.closedPipe.Error }, .closeW],
        sendRes, res⟩
    | none =>
      let run := pushWorkers untar sendRes ending (seen ++ [xfer.payload]) rest
      { run with events := .write xfer.payload :: run.events }

/-- Everything outside the handler that one Push invocation depends on: the inbound
stream (`chunks`, then `rpc.Recv` fails with `ending`, `io.EOF` at end of stream),
the archiver, the result of `rpc.SendAndClose`, and whether the archiver worker
records its result in the join before the drain worker does. -/
structure PushEnv where
  chunks : List Transfer
  ending : GoError
  untar : Archiver
  sendRes : Option GoError
  untarFirst : Bool

/-- Run of one Push invocation. -/
structure PushRun where
  events : List PushEvent
  drainRet : Option GoError
  untarRet : Option GoError
  result : Option GoError
  deriving DecidableEq, Repr

/-- Handler `WaterfallServer.Push`. -/
def Push (env : PushEnv) : PushRun :=
  match env.chunks with
  | [] => ⟨[], none, none, some env.ending⟩
  | xfer :: rest =>
    let w := pushWorkers env.untar env.sendRes env.ending [] (xfer :: rest)
    let result :=
      if env.untarFirst then egWait [w.untarRet, w.drainRet]
      else egWait [w.drainRet, w.untarRet]
    ⟨w.events, w.drainRet, w.untarRet, result⟩

/-- Responses sent with `rpc.SendAndClose`, in order. -/
def responses : List PushEvent → List Transfer
  | [] => []
  | .send t :: es => t :: responses es
  | _ :: es => responses es

/-- Bytes accepted by the sink, in order. -/
def sinkBytes : List PushEvent → List Byte
  | [] => []
  | .write p :: es => p ++ sinkBytes es
  | _ :: es => sinkBytes es

/-- Whether a write to the sink failed. -/
def writeFails : List PushEvent → Bool
  | [] => false
  | .writeFailed _ _ :: _ => true
  | _ :: es => writeFails es

/-- An archiver that fails at once with `e` (for instance on an unwritable
destination). -/
def failingUntar (e : GoError) : Archiver := ⟨fun _ => some (some e), fun _ => some e⟩

/-- An archiver that reads to the end of its input and reports `res` there. -/
def readAllUntar (res : Option GoError) : Archiver := ⟨fun _ => none, fun _ => res⟩

/-! ## Pull -/

/-- Constant `bufSize`. -/
def bufSize : Nat := 32 * 1024

/-- Result `(n, err)` of one `Read(buff)`: `data` is the `n` bytes placed at the front
of the buffer, that is `buff[0:n]`, and `err` the error (nil is `none`). -/
structure ReadRes where
  data : List Byte
  err : Option GoError
  deriving DecidableEq, Repr

/-- Count `n` of a read. -/
def ReadRes.n (rd : ReadRes) : Nat := rd.data.length

/-- Run of the send worker of Pull: the messages passed to `ps.Send`, the number of
reads it made, and its result (`none`: it is blocked in a read that never
returns). -/
structure PullSend where
  sent : List Transfer
  reads : Nat
  ret : Option (Option GoError)
  deriving DecidableEq, Repr

/-- The send worker of Pull.  The list holds the results of the successive
`r.Read(buff)` calls, `sendRes k` is the result of the `k`-th `ps.Send`. -/
def pullSendWorker (sendRes : Nat → Option GoError) : Nat → List ReadRes → PullSend
  | _, [] => ⟨[], 0, none⟩
  | k, rd :: rest =>
    if rd.err ≠ none ∧ rd.err ≠ some .eof then
      ⟨[], 1, some rd.err⟩
    else if 0 < rd.n then
      let xfer : Transfer := { payload := rd.data }
      match sendRes k with
      | some e => ⟨[xfer], 1, some (some e)⟩
      | none =>
        if rd.err = some .eof then
          ⟨[xfer], 1, some none⟩
        else
          let run := pullSendWorker sendRes (k + 1) rest
          ⟨xfer :: run.sent, run.reads + 1, run.ret⟩
    else if rd.err = some .eof then
      ⟨[], 1, some none⟩
    else
      let run := pullSendWorker sendRes k rest
      ⟨run.sent, run.reads + 1, run.ret⟩

/-- Everything outside the handler that one Pull invocation depends on: the error of
`os.Stat(t.Path)`, the reads of the send worker on the pipe, the results of
`ps.Send`, the result of `waterfall.Tar(w, t.Path)`, and whether the archiver
worker records its result in the join first. -/
structure PullEnv where
  path : String
  stat : Option GoError
  reads : List ReadRes
  sendRes : Nat → Option GoError
  tarRet : Option GoError
  tarFirst : Bool

/-- Run of one Pull invocation. -/
structure PullRun where
  tarStarted : Bool
  sendStarted : Bool
  sent : List Transfer
  outcome : Outcome
  deriving DecidableEq, Repr

/-- Handler `WaterfallServer.Pull`. -/
def Pull (env : PullEnv) : PullRun :=
  if IsNotExist env.stat then
    ⟨false, false, [], .returned env.stat⟩
  else
    let s := pullSendWorker env.sendRes 0 env.reads
    match s.ret with
    | none => ⟨true, true, s.sent, .blocked⟩
    | some r =>
      ⟨true, true, s.sent,
        .returned (if env.tarFirst then egWait [env.tarRet, r] else egWait [r, env.tarRet])⟩

/-- Reads up to and including the first one that returns end-of-stream. -/
def uptoEOF : List ReadRes → List ReadRes
  | [] => []
  | rd :: rest => if rd.err = some .eof then [rd] else rd :: uptoEOF rest

/-- Bytes delivered by a list of reads. -/
def bytesRead (rs : List ReadRes) : List Byte := (rs.map ReadRes.data).flatten

/-! ## Exec -/

/-- Message `CmdProgress` of the Exec stream. -/
structure CmdProgress where
  stdout : List Byte := []
  stderr : List Byte := []
  exitCode : Nat := 0
  deriving DecidableEq, Repr

/-- Message `Cmd`: the command to run. -/
structure Cmd where
  path : String
  args : List String
  dir : String
  pipeIn : Bool
  deriving DecidableEq, Repr

/-- First inbound message of Exec. -/
structure CmdMessage where
  cmd : Cmd
  deriving DecidableEq, Repr

/-- Method `chanWriter.Write`: a fresh slice `nb` with the contents of `b` is put on
the channel `c` (its queue of handed-off chunks); the result is `(len(nb), nil)`. -/
def chanWriter.Write (c : List (List Byte)) (b : List Byte) :
    List (List Byte) × Nat × Option GoError :=
  let nb : List Byte := (List.replicate b.length (0 : Byte)).zipWith (fun _ x => x) b
  (c ++ [nb], nb.length, none)

/-- Run of a copy worker of Exec: the chunks it hands off, in order, and its result
(`none`: blocked in a read that never returns, the channel is never closed). -/
structure CopyRun where
  handed : List (List Byte)
  ret : Option (Option GoError)
  deriving DecidableEq, Repr

/-- Loop of `io.Copy(chanWriter(ch), src)`: every read with `n > 0` is written to the
channel; the loop ends at the first read error, which is its result unless it is
`io.EOF`.  `chanWriter.Write` never fails and never writes short. -/
def ioCopy : List (List Byte) → List ReadRes → CopyRun
  | ch, [] => ⟨ch, none⟩
  | ch, rd :: rest =>
    let ch1 := if 0 < rd.n then (chanWriter.Write ch rd.data).1 else ch
    match rd.err with
    | some e => ⟨ch1, some (if e = .eof then none else some e)⟩
    | none => ioCopy ch1 rest

/-- A copy worker of Exec: `io.Copy` into the channel, then `close`. -/
def copyWorker (reads : List ReadRes) : CopyRun := ioCopy [] reads

/-- Case chosen by one `select` of the multiplexer. -/
inductive Pick
  | out
  | err
  deriving DecidableEq, Repr

/-- Run of the multiplexer worker: the messages passed to `es.Send`, the number of
chunks received from each channel, the flags `oo` and `eo` when it stopped, and its
result (`none`: still in the loop when the schedule ends). -/
structure MuxRun where
  sent : List CmdProgress
  gotOut : Nat
  gotErr : Nat
  oo : Bool
  eo : Bool
  ret : Option (Option GoError)
  deriving DecidableEq, Repr

/-- The multiplexer worker of Exec.  `outs` and `errs` are the chunks still to be
received from `stdoutCh` and `stderrCh`; `outCloses` tells whether the producer
closes the channel after them.  A receive on a closed, drained channel returns
`(nil, false)`; a channel that is empty and never closed is never ready, so the
select cannot take that case. -/
def muxWorker (sendRes : Nat → Option GoError) (outCloses errCloses : Bool) :
    Nat → Bool → Bool → List (List Byte) → List (List Byte) → List Pick → MuxRun
  | _, oo, eo, _, _, [] =>
    if oo || eo then ⟨[], 0, 0, oo, eo, none⟩ else ⟨[], 0, 0, oo, eo, some none⟩
  | k, oo, eo, outs, errs, p :: picks =>
    if oo || eo then
      match p, outs, errs with
      | .out, o :: outs1, _ =>
        let msg : CmdProgress := { stdout := o }
        match sendRes k with
        | some e => ⟨[msg], 1, 0, true, eo, some (some e)⟩
        | none =>
          let run := muxWorker sendRes outCloses errCloses (k + 1) true eo outs1 errs picks
          { run with sent := msg :: run.sent, gotOut := run.gotOut + 1 }
      | .out, [], _ =>
        if outCloses then
          muxWorker sendRes outCloses errCloses k false eo [] errs picks
        else
          muxWorker sendRes outCloses errCloses k oo eo [] errs picks
      | .err, _, e :: errs1 =>
        let msg : CmdProgress := { stderr := e }
        match sendRes k with
        | some e => ⟨[msg], 0, 1, oo, true, some (some e)⟩
        | none =>
          let run := muxWorker sendRes outCloses errCloses (k + 1) oo true outs errs1 picks
          { run with sent := msg :: run.sent, gotErr := run.gotErr + 1 }
      | .err, _, [] =>
        if errCloses then
          muxWorker sendRes outCloses errCloses k oo false outs [] picks
        else
          muxWorker sendRes outCloses errCloses k oo eo outs [] picks
    else
      ⟨[], 0, 0, oo, eo, some none⟩

/-- Type `syscall.WaitStatus` on Linux, the platform of the server. -/
structure WaitStatus where
  raw : Nat
  deriving DecidableEq, Repr

/-- Method `Exited`: `w & 0x7F == 0`. -/
def WaitStatus.Exited (w : WaitStatus) : Bool := w.raw % 128 == 0

/-- Method `ExitStatus`: `(w >> 8) & 0xFF` for a process that exited, `-1` otherwise. -/
def WaitStatus.ExitStatus (w : WaitStatus) : Int :=
  if w.Exited then ((w.raw / 256 % 256 : Nat) : Int) else -1

/-- Conversion `uint32(i)` of an `int`. -/
def uint32 (i : Int) : Nat := (i % 4294967296).toNat

/-- Result of `cmd.Wait()`: nil, an `*exec.ExitError` (with what its `Sys()` holds,
`none` when that is not a `syscall.WaitStatus`), or another error. -/
inductive WaitResult
  | ok
  | exitError (sys : Option WaitStatus)
  | failed (e : GoError)
  deriving DecidableEq, Repr

/-- Wait status of a child that exits normally with status `K`. -/
def exitedWith (K : Nat) : WaitStatus := ⟨K * 256⟩

/-- Wait status of a child terminated by signal `sig` (1 to 126). -/
def signaledWith (sig : Nat) : WaitStatus := ⟨sig⟩

/-- What `cmd.Wait()` returns for a child that exits normally with status `K` once its
output has been copied: nil for 0, an exit error otherwise. -/
def waitOfExit (K : Nat) : WaitResult :=
  if K = 0 then .ok else .exitError (some (exitedWith K))

/-- State of the handle `cmd.Process`: whether `Release` has invalidated it, whether
the child has been waited for, and whether a kill signal was delivered to it. -/
structure Process where
  released : Bool := false
  done : Bool := false
  killed : Bool := false
  deriving DecidableEq, Repr

/-- Method `Process.Release`: the handle becomes unusable. -/
def Process.Release (p : Process) : Process × Option GoError :=
  ({ p with released := true }, none)

/-- Method `Process.Kill`: fails on a process that has been waited for and on a
released handle, otherwise the child is killed. -/
def Process.Kill (p : Process) : Process × Option GoError :=
  if p.done then (p, some (.other "os: process already finished"))
  else if p.released then (p, some (.other "os: process already released"))
  else ({ p with killed := true }, none)

/-- Calls deferred by Exec. -/
inductive Deferred
  | kill
  | release
  deriving DecidableEq, Repr

/-- Runs the deferred calls, the head of the stack first; returns the final state of
the handle and the calls in the order they ran, each with its result. -/
def runDeferred : List Deferred → Process → Process × List (Deferred × Option GoError)
  | [], p => (p, [])
  | .kill :: ds, p =>
    let r := (runDeferred ds p.Kill.1)
    (r.1, (.kill, p.Kill.2) :: r.2)
  | .release :: ds, p =>
    let r := (runDeferred ds p.Release.1)
    (r.1, (.release, p.Release.2) :: r.2)

/-- Everything outside the handler that one Exec invocation depends on: the first
`es.Recv`, the errors of `StdoutPipe`, `StderrPipe` and `Start`, the reads of the
two copy workers, the schedule of the select, the result of the `k`-th `es.Send`,
the order in which the workers (0: stdout copy, 1: stderr copy, 2: multiplexer)
record their results in the join, and the result of `cmd.Wait`. -/
structure ExecEnv where
  recv : Except GoError CmdMessage
  stdoutPipe : Option GoError
  stderrPipe : Option GoError
  start : Option GoError
  outReads : List ReadRes
  errReads : List ReadRes
  picks : List Pick
  sendRes : Nat → Option GoError
  joinOrder : List (Fin 3)
  wait : WaitResult

/-- Run of one Exec invocation: the messages passed to `es.Send`, how it ended, the
directory the child was started in, the result of the join, the deferred calls in
the order they ran, and the final state of the process handle (`none` when no
child was started). -/
structure ExecRun where
  sent : List CmdProgress
  outcome : Outcome
  dir : Option String
  join : Option (Option GoError)
  deferred : List (Deferred × Option GoError)
  proc : Option Process
  deriving DecidableEq, Repr

/-- Reads up to and including the first one that returns an error: the reads a copy
loop makes. -/
def uptoErr : List ReadRes → List ReadRes
  | [] => []
  | rd :: rest => if rd.err = none then rd :: uptoErr rest else [rd]

/-- The multiplexer worker as Exec starts it: both flags set, receiving the chunks
handed off by the two copy workers; a channel is closed when its copy worker
returns. -/
def execMux (sendRes : Nat → Option GoError) (outReads errReads : List ReadRes)
    (picks : List Pick) : MuxRun :=
  muxWorker sendRes (copyWorker outReads).ret.isSome (copyWorker errReads).ret.isSome
    0 true true (copyWorker outReads).handed (copyWorker errReads).handed picks

/-- The three workers of Exec and their join: the messages sent by the multiplexer
and the result of `eg.Wait()`, `none` when a worker never returns (a copy worker
blocked in a read or on a full channel of capacity 1, or the multiplexer). -/
def execWorkers (env : ExecEnv) : List CmdProgress × Option (Option GoError) :=
  let out := copyWorker env.outReads
  let err := copyWorker env.errReads
  let mux := execMux env.sendRes env.outReads env.errReads env.picks
  match out.ret, err.ret, mux.ret with
  | some r0, some r1, some r2 =>
    if out.handed.length ≤ mux.gotOut + 1 ∧ err.handed.length ≤ mux.gotErr + 1 then
      let res : Fin 3 → Option GoError := fun i =>
        if i = 0 then r0 else if i = 1 then r1 else r2
      (mux.sent, some (egWait ((env.joinOrder ++ [0, 1, 2]).map res)))
    else
      (mux.sent, none)
  | _, _, _ => (mux.sent, none)

/-- Handler `WaterfallServer.Exec` from the point where the child has been started
in directory `dir`: the two deferred calls, the workers, the join, `cmd.Wait`. -/
def execStarted (env : ExecEnv) (dir : String) : ExecRun :=
  let p0 : Process := {}
  let stack0 : List Deferred := []
  let stack1 := Deferred.kill :: stack0
  let stack2 := Deferred.release :: stack1
  let w := execWorkers env
  match w.2 with
  | none => ⟨w.1, .blocked, some dir, none, [], some p0⟩
  | some (some e) =>
    let d := runDeferred stack2 p0
    ⟨w.1, .returned (some e), some dir, some (some e), d.2, some d.1⟩
  | some none =>
    match env.wait with
    | .ok =>
      let d := runDeferred stack2 { p0 with done := true }
      ⟨w.1 ++ [{ exitCode := 0 }], .returned (env.sendRes w.1.length), some dir, some none,
        d.2, some d.1⟩
    | .exitError (some stat) =>
      let d := runDeferred stack2 { p0 with done := true }
      ⟨w.1 ++ [{ exitCode := uint32 stat.ExitStatus }],
        .returned (env.sendRes w.1.length), some dir, some none, d.2, some d.1⟩
    | .exitError none =>
      let d := runDeferred stack2 { p0 with done := true }
      ⟨w.1, .panicked "this never happens", some dir, some none, d.2, some d.1⟩
    | .failed e =>
      let d := runDeferred stack2 p0
      ⟨w.1, .returned (some e), some dir, some none, d.2, some d.1⟩

/-- Handler `WaterfallServer.Exec`. -/
def Exec (env : ExecEnv) : ExecRun :=
  match env.recv with
  | .error e => ⟨[], .returned (some e), none, none, [], none⟩
  | .ok cmdMsg =>
    if cmdMsg.cmd.pipeIn then
      ⟨[], .returned (some (.status .Unimplemented "stdin redirection is not implemented")),
        none, none, [], none⟩
    else
      let dir := if cmdMsg.cmd.dir = "" then "/" else cmdMsg.cmd.dir
      match env.stdoutPipe with
      | some e => ⟨[], .returned (some e), none, none, [], none⟩
      | none =>
      match env.stderrPipe with
      | some e => ⟨[], .returned (some e), none, none, [], none⟩
      | none =>
      match env.start with
      | some e => ⟨[], .returned (some e), none, none, [], none⟩
      | none => execStarted env dir

/-- Concatenation of the stdout payloads of a list of messages. -/
def stdoutBytes (ms : List CmdProgress) : List Byte := (ms.map CmdProgress.stdout).flatten

/-- Concatenation of the stderr payloads of a list of messages. -/
def stderrBytes (ms : List CmdProgress) : List Byte := (ms.map CmdProgress.stderr).flatten

/-- Payloads of the messages tagged stdout, in order. -/
def stdoutChunks (ms : List CmdProgress) : List (List Byte) :=
  (ms.map CmdProgress.stdout).filter (fun o => decide (o ≠ []))

/-- Payloads of the messages tagged stderr, in order. -/
def stderrChunks (ms : List CmdProgress) : List (List Byte) :=
  (ms.map CmdProgress.stderr).filter (fun e => decide (e ≠ []))

/-- A data message: output of exactly one of the two streams and no exit code. -/
def CmdProgress.isData (m : CmdProgress) : Prop :=
  m.exitCode = 0 ∧ ((m.stdout ≠ [] ∧ m.stderr = []) ∨ (m.stdout = [] ∧ m.stderr ≠ []))

/-- An exit-code message: no output of either stream. -/
def CmdProgress.isExit (m : CmdProgress) : Prop :=
  m.stdout = [] ∧ m.stderr = []

/-! ## Forward -/

/-- Enum `ForwardMessage_Kind`: the three supported kinds and any other number the
wire can carry. -/
inductive ForwardKind
  | TCP
  | UDP
  | UNIX
  | unrecognized (v : Nat)
  deriving DecidableEq, Repr

/-- First inbound message of Forward. -/
structure ForwardMessage where
  kind : ForwardKind
  addr : String
  deriving DecidableEq, Repr

/-- A dialed connection: whether it implements `forward.HalfReadWriteCloser`, and the
result of forwarding over it. -/
structure Conn where
  halfCloser : Bool
  forwardRes : Option GoError
  deriving DecidableEq, Repr

/-- Everything outside the handler that one Forward invocation depends on: the first
`stream.Recv` and the dialer `net.Dial`. -/
structure ForwardEnv where
  recv : Except GoError ForwardMessage
  dial : String → String → Except GoError Conn

/-- Run of one Forward invocation: the calls to `net.Dial`, whether the forwarder was
started, and how it ended. -/
structure ForwardRun where
  dials : List (String × String)
  forwarder : Bool
  outcome : Outcome
  deriving DecidableEq, Repr

/-- Network name chosen by the switch on the kind, `none` in the default case. -/
def networkOf : ForwardKind → Option String
  | .TCP => some "tcp"
  | .UDP => some "udp"
  | .UNIX => some "unix"
  | .unrecognized _ => none

/-- Handler `WaterfallServer.Forward`. -/
def Forward (env : ForwardEnv) : ForwardRun :=
  match env.recv with
  | .error e => ⟨[], false, .returned (some e)⟩
  | .ok fwd =>
    match networkOf fwd.kind with
    | none => ⟨[], false, .returned (some (.status .InvalidArgument "unsupported network type"))⟩
    | some kind =>
      match env.dial kind fwd.addr with
      | .error e => ⟨[(kind, fwd.addr)], false, .returned (some e)⟩
      | .ok conn =>
        if conn.halfCloser then
          ⟨[(kind, fwd.addr)], true, .returned conn.forwardRes⟩
        else
          ⟨[(kind, fwd.addr)], false, .panicked "interface conversion"⟩

/-! ## Inputs used to evaluate the handlers -/

/-- A push of one chunk to a destination the archiver cannot write. -/
def pushUnwritable : PushEnv :=
  { chunks := [{ path := "/system/app", payload := [1, 2, 3] }]
    ending := .eof
    untar := failingUntar (.pathError "mkdir" "/system/app" .EACCES)
    sendRes := none
    untarFirst := false }

/-- A push of two chunks that the archiver accepts, where the response cannot be
sent any more. -/
def pushSendFails : PushEnv :=
  { chunks := [{ path := "/data/f", payload := [1] }, { payload := [2] }]
    ending := .eof
    untar := readAllUntar none
    sendRes := some (.other "transport is closing")
    untarFirst := false }

/-- A push of two chunks where the archiver rejects the archive once it has seen
the end of its input. -/
def pushTruncated : PushEnv :=
  { chunks := [{ path := "/data/f", payload := [1] }, { payload := [2] }]
    ending := .eof
    untar := readAllUntar (some (.other "unexpected EOF"))
    sendRes := none
    untarFirst := true }

/-- A pull of a path that does not exist. -/
def pullMissing : PullEnv :=
  { path := "/no/such"
    stat := some (.pathError "stat" "/no/such" .ENOENT)
    reads := []
    sendRes := fun _ => none
    tarRet := none
    tarFirst := false }

/-- Reads of a small archive: two bytes, an empty read, one byte with end-of-stream. -/
def smallReads : List ReadRes :=
  [⟨[1, 2], none⟩, ⟨[], none⟩, ⟨[3], some .eof⟩]

/-- First message of an Exec invocation: a shell command, no stdin redirection. -/
def shellCmd : CmdMessage :=
  ⟨{ path := "/system/bin/sh", args := ["-c", "run"], dir := "", pipeIn := false }⟩

/-- An Exec invocation whose child writes two bytes, closes its outputs and goes on
running, while the client is gone: the first send of the multiplexer fails. -/
def execSendFails : ExecEnv :=
  { recv := .ok shellCmd
    stdoutPipe := none
    stderrPipe := none
    start := none
    outReads := [⟨[104, 105], none⟩, ⟨[], some .eof⟩]
    errReads := [⟨[], some .eof⟩]
    picks := [.out]
    sendRes := fun _ => some (.other "transport is closing")
    joinOrder := []
    wait := .ok }

/-- An Exec invocation whose child writes nothing and is terminated by signal 9. -/
def execSignaled : ExecEnv :=
  { recv := .ok shellCmd
    stdoutPipe := none
    stderrPipe := none
    start := none
    outReads := [⟨[], some .eof⟩]
    errReads := [⟨[], some .eof⟩]
    picks := [.out, .err]
    sendRes := fun _ => none
    joinOrder := []
    wait := .exitError (some (signaledWith 9)) }

/-- An Exec invocation whose child writes to both streams and exits with status 137. -/
def execExits : ExecEnv :=
  { recv := .ok shellCmd
    stdoutPipe := none
    stderrPipe := none
    start := none
    outReads := [⟨[104, 105], none⟩, ⟨[], some .eof⟩]
    errReads := [⟨[33], none⟩, ⟨[], some .eof⟩]
    picks := [.err, .out, .out, .err]
    sendRes := fun _ => none
    joinOrder := []
    wait := waitOfExit 137 }

/-- A Forward request for a TCP port that refuses the connection. -/
def forwardRefused : ForwardEnv :=
  { recv := .ok ⟨.TCP, "localhost:8080"⟩
    dial := fun _ _ => .error (.other "connection refused") }

/-- A Forward request with a kind outside the supported set. -/
def forwardUnknown : ForwardEnv :=
  { recv := .ok ⟨.unrecognized 7, "localhost:8080"⟩
    dial := fun _ _ => .ok ⟨true, none⟩ }

/-! ## Push: proofs -/

theorem egWait_pair_none (a b : Option GoError) :
    egWait [a, b] = none ↔ a = none ∧ b = none := by
  cases a <;> cases b <;> simp [egWait]

theorem egWait_right_none (a : Option GoError) : egWait [a, none] = a := by
  cases a <;> rfl

theorem egWait_left_none (a : Option GoError) : egWait [none, a] = a := by
  cases a <;> rfl

theorem pushWorkers_writeFails (untar : Archiver) (sendRes : Option GoError)
    (ending : GoError) (chunks : List Transfer) :
    ∀ seen, writeFails (pushWorkers untar sendRes ending seen chunks).events = true →
      responses (pushWorkers untar sendRes ending seen chunks).events
          = [{ success := false, err := GoError.closedPipe.Error }] ∧
        (pushWorkers untar sendRes ending seen chunks).drainRet = sendRes := by
  induction chunks with
  | nil =>
    intro seen h
    exfalso
    revert h
    simp only [pushWorkers]
    split <;> split <;> simp [writeFails]
  | cons xfer rest ih =>
    intro seen
    simp only [pushWorkers]
    split
    · intro _
      simp [responses]
    · intro h
      simpa [responses, writeFails] using ih (seen ++ [xfer.payload]) (by simpa [writeFails] using h)

theorem pushWorkers_noFail (untar : Archiver) (sendRes : Option GoError)
    (chunks : List Transfer) :
    ∀ seen, writeFails (pushWorkers untar sendRes .eof seen chunks).events = false →
      ∃ tail, (pushWorkers untar sendRes .eof seen chunks).events
          = chunks.map (fun c => PushEvent.write c.payload) ++ tail ∧
        responses tail = [{ success := true }] ∧ sinkBytes tail = [] ∧
        (∃ pre post, tail = pre ++ PushEvent.send { success := true } :: PushEvent.closeW :: post ∧
          PushEvent.closeW ∉ pre ∧ PushEvent.untarEOF ∉ pre) ∧
        (pushWorkers untar sendRes .eof seen chunks).drainRet = sendRes := by
  induction chunks with
  | nil =>
    intro seen _
    simp only [pushWorkers, if_true, List.map_nil, List.nil_append]
    split
    · next res _ =>
      refine ⟨_, rfl, by simp [responses], by simp [sinkBytes], ?_, rfl⟩
      exact ⟨[.untarReturn res, .closeR], [], by simp, by simp, by simp⟩
    · refine ⟨_, rfl, by simp [responses], by simp [sinkBytes], ?_, rfl⟩
      exact ⟨[], [.untarEOF, .untarReturn (untar.atEOF seen), .closeR], by simp, by simp,
        by simp⟩
  | cons xfer rest ih =>
    intro seen
    simp only [pushWorkers]
    split
    · intro h
      simp [writeFails] at h
    · intro h
      obtain ⟨tail, h1, h2, h3, h4, h5⟩ :=
        ih (seen ++ [xfer.payload]) (by simpa [writeFails] using h)
      exact ⟨tail, by simp [h1], h2, h3, h4, h5⟩

theorem sinkBytes_writes (chunks : List Transfer) (tail : List PushEvent) :
    sinkBytes (chunks.map (fun c => PushEvent.write c.payload) ++ tail)
      = (chunks.map Transfer.payload).flatten ++ sinkBytes tail := by
  induction chunks with
  | nil => simp
  | cons c rest ih => simp [sinkBytes, ih]

theorem responses_writes (chunks : List Transfer) (tail : List PushEvent) :
    responses (chunks.map (fun c => PushEvent.write c.payload) ++ tail) = responses tail := by
  induction chunks with
  | nil => simp
  | cons c rest ih => simp [responses, ih]

/-- C1 (as amended): in every Push invocation in which a write of a received payload
to the sink fails, exactly one response is sent, with success=false and a non-empty
error text; the drain worker returns the result of that send, and Push returns nil
exactly when that send succeeded and the archiver worker returned nil; when the
send succeeds the result of Push is the result of the archiver worker. -/
theorem push_write_failure (env : PushEnv) (h : writeFails (Push env).events = true) :
    (∃ t, responses (Push env).events = [t] ∧ t.success = false ∧ t.err ≠ "" ∧
      t.payload = [] ∧ t.path = "") ∧
    (Push env).drainRet = env.sendRes ∧
    ((Push env).result = none ↔ env.sendRes = none ∧ (Push env).untarRet = none) ∧
    (env.sendRes = none → (Push env).result = (Push env).untarRet) := by
  unfold Push at h ⊢
  cases hc : env.chunks with
  | nil => simp [hc, writeFails] at h
  | cons xfer rest =>
    simp only [hc] at h ⊢
    obtain ⟨hr, hd⟩ := pushWorkers_writeFails env.untar env.sendRes env.ending (xfer :: rest) [] h
    refine ⟨⟨_, hr, rfl, by decide, rfl, rfl⟩, hd, ?_, ?_⟩
    · rw [hd]
      split
      · rw [egWait_pair_none]; tauto
      · rw [egWait_pair_none]
    · intro hs
      rw [hd, hs]
      split
      · exact egWait_right_none _
      · exact egWait_left_none _

/-- Witness of C1 as amended: the push to an unwritable destination. -/
theorem push_write_failure_witness :
    writeFails (Push pushUnwritable).events = true ∧
    (∃ t, responses (Push pushUnwritable).events = [t] ∧ t.success = false ∧ t.err ≠ "" ∧
      t.payload = [] ∧ t.path = "") ∧
    (Push pushUnwritable).drainRet = pushUnwritable.sendRes ∧
    ((Push pushUnwritable).result = none ↔
      pushUnwritable.sendRes = none ∧ (Push pushUnwritable).untarRet = none) ∧
    (pushUnwritable.sendRes = none →
      (Push pushUnwritable).result = (Push pushUnwritable).untarRet) :=
  ⟨by decide, push_write_failure pushUnwritable (by decide)⟩

/-- C1 as stated fails: on an unwritable destination the first write fails and one
response with success=false is sent, yet Push returns the error of the archiver
worker, not nil. -/
theorem push_write_failure_returns_error :
    writeFails (Push pushUnwritable).events = true ∧
    responses (Push pushUnwritable).events
      = [{ success := false, err := "io: read/write on closed pipe" }] ∧
    (Push pushUnwritable).result = some (.pathError "mkdir" "/system/app" .EACCES) ∧
    (Push pushUnwritable).result ≠ none := by
  decide

/-- C2 (as amended): for every inbound Push stream of chunks c0..cn followed by
end-of-stream, when every sink write succeeds, the bytes written to the sink are
exactly payload(c0) ++ ... ++ payload(cn) in arrival order, and the drain worker
then sends exactly one response, with success=true, after the last write, and
returns the result of that send (nil when the send succeeds). -/
theorem push_stream_written (env : PushEnv) (c0 : Transfer) (rest : List Transfer)
    (hc : env.chunks = c0 :: rest) (he : env.ending = .eof)
    (hw : writeFails (Push env).events = false) :
    sinkBytes (Push env).events = (env.chunks.map Transfer.payload).flatten ∧
    responses (Push env).events = [{ success := true }] ∧
    (∃ tail, (Push env).events = env.chunks.map (fun c => PushEvent.write c.payload) ++ tail ∧
      responses tail = [{ success := true }] ∧ sinkBytes tail = []) ∧
    (Push env).drainRet = env.sendRes ∧
    (env.sendRes = none → (Push env).drainRet = none) := by
  unfold Push at hw ⊢
  simp only [hc, he] at hw ⊢
  obtain ⟨tail, h1, h2, h3, _, h5⟩ :=
    pushWorkers_noFail env.untar env.sendRes (c0 :: rest) [] hw
  refine ⟨?_, ?_, ⟨tail, h1, h2, h3⟩, h5, fun hs => by rw [h5, hs]⟩
  · rw [h1, sinkBytes_writes, h3, List.append_nil]
  · rw [h1, responses_writes, h2]

/-- Witness of C2 as amended: a push of two chunks. -/
theorem push_stream_written_witness :
    writeFails (Push pushTruncated).events = false ∧
    sinkBytes (Push pushTruncated).events = [1, 2] ∧
    responses (Push pushTruncated).events = [{ success := true }] ∧
    (Push pushTruncated).drainRet = none :=
  have h := push_stream_written pushTruncated { path := "/data/f", payload := [1] }
    [{ payload := [2] }] rfl rfl (by decide)
  ⟨by decide, h.1, h.2.1, h.2.2.2.2 rfl⟩

/-- C2 as stated fails: every write succeeds and the response with success=true is
passed to the stream, but the send fails and the drain worker returns that error,
not nil. -/
theorem push_drain_returns_send_error :
    pushSendFails.ending = .eof ∧
    writeFails (Push pushSendFails).events = false ∧
    sinkBytes (Push pushSendFails).events = [1, 2] ∧
    responses (Push pushSendFails).events = [{ success := true }] ∧
    (Push pushSendFails).drainRet = some (.other "transport is closing") ∧
    (Push pushSendFails).drainRet ≠ none := by
  decide

/-- C10: in Push, on end-of-stream the response with success=true is sent before the
sink is closed and before the archiver observes the end of its input; and in the
execution `pushTruncated`, where the archiver fails only once it sees the end of
its input, Push both sends a response with success=true and returns the
non-nil error of the archiver. -/
theorem push_success_then_archiver_error :
    (∀ env : PushEnv, env.chunks ≠ [] → env.ending = .eof →
      writeFails (Push env).events = false →
      ∃ pre post, (Push env).events
          = pre ++ PushEvent.send { success := true } :: PushEvent.closeW :: post ∧
        PushEvent.closeW ∉ pre ∧ PushEvent.untarEOF ∉ pre) ∧
    (Push pushTruncated).events
      = [.write [1], .write [2], .send { success := true }, .closeW, .untarEOF,
          .untarReturn (some (.other "unexpected EOF")), .closeR] ∧
    responses (Push pushTruncated).events = [{ success := true }] ∧
    (Push pushTruncated).untarRet = some (.other "unexpected EOF") ∧
    (Push pushTruncated).result = some (.other "unexpected EOF") := by
  refine ⟨?_, by decide, by decide, by decide, by decide⟩
  intro env hne he hw
  unfold Push at hw ⊢
  cases hc : env.chunks with
  | nil => exact absurd hc hne
  | cons c0 rest =>
    simp only [hc, he] at hw ⊢
    obtain ⟨tail, h1, _, _, ⟨pre, post, h4, hp1, hp2⟩, _⟩ :=
      pushWorkers_noFail env.untar env.sendRes (c0 :: rest) [] hw
    refine ⟨(c0 :: rest).map (fun c => PushEvent.write c.payload) ++ pre, post, ?_, ?_, ?_⟩
    · rw [h1, h4, List.append_assoc]
    · simp [hp1]
    · simp [hp2]

/-- Witness of C10: the ordering holds in the execution `pushTruncated`. -/
theorem push_success_then_archiver_error_witness :
    ∃ pre post, (Push pushTruncated).events
        = pre ++ PushEvent.send { success := true } :: PushEvent.closeW :: post ∧
      PushEvent.closeW ∉ pre ∧ PushEvent.untarEOF ∉ pre :=
  push_success_then_archiver_error.1 pushTruncated (by decide) rfl (by decide)

/-! ## Pull: proofs -/

theorem uptoEOF_subset (reads : List ReadRes) : ∀ rd ∈ uptoEOF reads, rd ∈ reads := by
  induction reads with
  | nil => simp [uptoEOF]
  | cons r rest ih =>
    intro rd h
    unfold uptoEOF at h
    split at h
    · simp at h
      simp [h]
    · rcases List.mem_cons.1 h with h | h
      · simp [h]
      · exact List.mem_cons_of_mem _ (ih rd h)

theorem pullSendWorker_spec (sendRes : Nat → Option GoError) (hs : ∀ j, sendRes j = none)
    (reads : List ReadRes) :
    ∀ k, (∀ rd ∈ reads, rd.err = none ∨ rd.err = some .eof) →
      (pullSendWorker sendRes k reads).sent
          = ((uptoEOF reads).filter (fun rd => decide (0 < rd.n))).map
              (fun rd => ({ payload := rd.data } : Transfer)) ∧
        ((pullSendWorker sendRes k reads).sent.map Transfer.payload).flatten
          = bytesRead (uptoEOF reads) ∧
        (pullSendWorker sendRes k reads).reads = (uptoEOF reads).length ∧
        ((∃ rd ∈ reads, rd.err = some .eof) →
          (pullSendWorker sendRes k reads).ret = some none) := by
  induction reads with
  | nil =>
    intro k _
    simp [pullSendWorker, uptoEOF, bytesRead]
  | cons rd rest ih =>
    intro k herr
    have hrest : ∀ r ∈ rest, r.err = none ∨ r.err = some .eof :=
      fun r hr => herr r (List.mem_cons_of_mem _ hr)
    have h1 : ¬ (rd.err ≠ none ∧ rd.err ≠ some .eof) := by
      rcases herr rd (List.mem_cons_self _ _) with h | h
      · exact fun hc => hc.1 h
      · exact fun hc => hc.2 h
    unfold pullSendWorker
    rw [if_neg h1]
    by_cases h2 : 0 < rd.n
    · rw [if_pos h2]
      simp only [hs k]
      by_cases h3 : rd.err = some .eof
      · rw [if_pos h3]
        refine ⟨?_, ?_, ?_, ?_⟩
        · simp [uptoEOF, h3, h2]
        · simp [uptoEOF, h3, bytesRead]
        · simp [uptoEOF, h3]
        · intro _
          rfl
      · rw [if_neg h3]
        obtain ⟨i1, i2, i3, i4⟩ := ih (k + 1) hrest
        refine ⟨?_, ?_, ?_, ?_⟩
        · simp [uptoEOF, h3, h2, i1]
        · simp only [uptoEOF, if_neg h3, List.map_cons, List.flatten_cons, i2, bytesRead]
        · simp [uptoEOF, h3, i3]
        · rintro ⟨r, hr, he⟩
          rcases List.mem_cons.1 hr with hr | hr
          · subst hr
            exact absurd he h3
          · exact i4 ⟨r, hr, he⟩
    · rw [if_neg h2]
      have hd : rd.data = [] := List.length_eq_zero.1 (by unfold ReadRes.n at h2; omega)
      by_cases h3 : rd.err = some .eof
      · rw [if_pos h3]
        refine ⟨?_, ?_, ?_, ?_⟩
        · simp [uptoEOF, h3, h2]
        · simp [uptoEOF, h3, bytesRead, hd]
        · simp [uptoEOF, h3]
        · intro _
          rfl
      · rw [if_neg h3]
        obtain ⟨i1, i2, i3, i4⟩ := ih k hrest
        refine ⟨?_, ?_, ?_, ?_⟩
        · simp [uptoEOF, h3, h2, i1]
        · simp only [uptoEOF, if_neg h3, i2, bytesRead, List.map_cons, List.flatten_cons, hd,
            List.nil_append]
        · simp [uptoEOF, h3, i3]
        · rintro ⟨r, hr, he⟩
          rcases List.mem_cons.1 hr with hr | hr
          · subst hr
            exact absurd he h3
          · exact i4 ⟨r, hr, he⟩

/-- C3: for every sequence of pipe reads (n_i, err_i) with 0 <= n_i <= 32768 and
err_i nil or end-of-stream, when every send succeeds, the send worker of Pull makes
exactly the reads up to and including the first one that returns end-of-stream;
the messages it sends are exactly those reads with n_i > 0, in order, each carrying
only a payload of length between 1 and 32768; the concatenation of the sent
payloads equals the bytes read; and the worker returns nil when it reaches
end-of-stream. -/
theorem pull_send_worker_messages (sendRes : Nat → Option GoError) (reads : List ReadRes)
    (hn : ∀ rd ∈ reads, rd.n ≤ bufSize)
    (herr : ∀ rd ∈ reads, rd.err = none ∨ rd.err = some .eof)
    (hs : ∀ j, sendRes j = none) :
    (pullSendWorker sendRes 0 reads).sent
        = ((uptoEOF reads).filter (fun rd => decide (0 < rd.n))).map
            (fun rd => ({ payload := rd.data } : Transfer)) ∧
      (∀ m ∈ (pullSendWorker sendRes 0 reads).sent,
        m.path = "" ∧ m.success = false ∧ m.err = "" ∧
          1 ≤ m.payload.length ∧ m.payload.length ≤ 32768) ∧
      ((pullSendWorker sendRes 0 reads).sent.map Transfer.payload).flatten
        = bytesRead (uptoEOF reads) ∧
      (pullSendWorker sendRes 0 reads).reads = (uptoEOF reads).length ∧
      ((∃ rd ∈ reads, rd.err = some .eof) →
        (pullSendWorker sendRes 0 reads).ret = some none) := by
  obtain ⟨h1, h2, h3, h4⟩ := pullSendWorker_spec sendRes hs reads 0 herr
  refine ⟨h1, ?_, h2, h3, h4⟩
  intro m hm
  rw [h1] at hm
  obtain ⟨rd, hrd, rfl⟩ := List.mem_map.1 hm
  obtain ⟨hmem, hpos⟩ := List.mem_filter.1 hrd
  have hb := hn rd (uptoEOF_subset reads rd hmem)
  have hp : 0 < rd.n := by simpa using hpos
  unfold ReadRes.n bufSize at *
  refine ⟨rfl, rfl, rfl, ?_, ?_⟩
  · show 1 ≤ rd.data.length
    omega
  · show rd.data.length ≤ 32768
    omega

/-- Witness of C3: the reads `smallReads`, with every send succeeding. -/
theorem pull_send_worker_messages_witness :
    (pullSendWorker (fun _ => none) 0 smallReads).sent
        = [{ payload := [1, 2] }, { payload := [3] }] ∧
      (∀ m ∈ (pullSendWorker (fun _ => none) 0 smallReads).sent,
        m.path = "" ∧ m.success = false ∧ m.err = "" ∧
          1 ≤ m.payload.length ∧ m.payload.length ≤ 32768) ∧
      ((pullSendWorker (fun _ => none) 0 smallReads).sent.map Transfer.payload).flatten
        = [1, 2, 3] ∧
      (pullSendWorker (fun _ => none) 0 smallReads).reads = 3 ∧
      (pullSendWorker (fun _ => none) 0 smallReads).ret = some none :=
  have h := pull_send_worker_messages (fun _ => none) smallReads (by decide) (by decide)
    (fun _ => rfl)
  ⟨h.1.trans (by decide), h.2.1, h.2.2.1.trans (by decide), h.2.2.2.1.trans (by decide),
    h.2.2.2.2 ⟨⟨[3], some .eof⟩, by decide, rfl⟩⟩

/-- C4 (as amended): for every Pull request whose path does not exist, Pull fails
immediately with the not-exist error of `os.Stat`, returned unchanged (an OS error,
not a status error of the transport), without starting the archiver or the send
worker and without sending any chunk. -/
theorem pull_missing_path (env : PullEnv) (h : IsNotExist env.stat = true) :
    (∃ e, env.stat = some e ∧ (Pull env).outcome = .returned (some e) ∧
      ∀ c msg, e ≠ .status c msg) ∧
    (Pull env).tarStarted = false ∧ (Pull env).sendStarted = false ∧
    (Pull env).sent = [] := by
  unfold Pull
  rw [if_pos h]
  refine ⟨?_, rfl, rfl, rfl⟩
  cases hs : env.stat with
  | none => simp [hs, IsNotExist] at h
  | some e =>
    refine ⟨e, rfl, rfl, ?_⟩
    intro c msg he
    subst he
    simp [hs, IsNotExist] at h

/-- Witness of C4 as amended: the pull of `/no/such`. -/
theorem pull_missing_path_witness :
    IsNotExist pullMissing.stat = true ∧
    (∃ e, pullMissing.stat = some e ∧ (Pull pullMissing).outcome = .returned (some e) ∧
      ∀ c msg, e ≠ .status c msg) ∧
    (Pull pullMissing).tarStarted = false ∧ (Pull pullMissing).sendStarted = false ∧
    (Pull pullMissing).sent = [] :=
  ⟨by decide, pull_missing_path pullMissing (by decide)⟩

/-- C4 as stated fails: for the missing path `/no/such` Pull returns the error of
`os.Stat` itself, whose status code is Unknown, not NotFound. -/
theorem pull_missing_path_not_coded :
    IsNotExist pullMissing.stat = true ∧
    (Pull pullMissing).outcome = .returned (some (.pathError "stat" "/no/such" .ENOENT)) ∧
    statusCode (some (.pathError "stat" "/no/such" .ENOENT)) = .Unknown ∧
    statusCode (some (.pathError "stat" "/no/such" .ENOENT)) ≠ .NotFound := by
  decide

/-! ## Exec: the copy workers -/

theorem zipWith_copy (b : List Byte) :
    (List.replicate b.length (0 : Byte)).zipWith (fun _ x => x) b = b := by
  induction b with
  | nil => rfl
  | cons x xs ih => simp [List.replicate_succ, ih]

theorem chanWriter_Write_eq (c : List (List Byte)) (b : List Byte) :
    chanWriter.Write c b = (c ++ [b], b.length, none) := by
  unfold chanWriter.Write
  simp only [zipWith_copy]

theorem ioCopy_handed (reads : List ReadRes) :
    ∀ ch, (ioCopy ch reads).handed
      = ch ++ ((uptoErr reads).filter (fun rd => decide (0 < rd.n))).map ReadRes.data := by
  induction reads with
  | nil => intro ch; simp [ioCopy, uptoErr]
  | cons rd rest ih =>
    intro ch
    unfold ioCopy uptoErr
    cases he : rd.err with
    | some e =>
      by_cases hn : 0 < rd.n <;> simp [hn, chanWriter_Write_eq]
    | none =>
      by_cases hn : 0 < rd.n <;> simp [hn, chanWriter_Write_eq, ih]

theorem copyWorker_handed (reads : List ReadRes) :
    (copyWorker reads).handed
      = ((uptoErr reads).filter (fun rd => decide (0 < rd.n))).map ReadRes.data := by
  unfold copyWorker
  rw [ioCopy_handed]
  rfl

theorem copyWorker_nonempty (reads : List ReadRes) :
    ∀ c ∈ (copyWorker reads).handed, c ≠ [] := by
  intro c hc
  rw [copyWorker_handed] at hc
  obtain ⟨rd, hrd, rfl⟩ := List.mem_map.1 hc
  have hp : 0 < rd.n := by simpa using (List.mem_filter.1 hrd).2
  intro h0
  unfold ReadRes.n at hp
  rw [h0] at hp
  exact absurd hp (by simp)

theorem flatten_filter_nonempty (l : List (List Byte)) :
    (l.filter (fun o => decide (o ≠ []))).flatten = l.flatten := by
  induction l with
  | nil => rfl
  | cons x xs ih =>
    by_cases hx : x = []
    · simpa [hx] using ih
    · simpa [hx] using ih

theorem copyWorker_bytes (reads : List ReadRes) :
    (copyWorker reads).handed.flatten = bytesRead (uptoErr reads) := by
  rw [copyWorker_handed]
  unfold bytesRead
  induction uptoErr reads with
  | nil => rfl
  | cons rd rest ih =>
    by_cases hn : 0 < rd.n
    · simp [hn, ih]
    · have hd : rd.data = [] := List.length_eq_zero.1 (by unfold ReadRes.n at hn; omega)
      simp [hn, ih, hd]

/-! ## Exec: the multiplexer worker -/

theorem muxWorker_nil (sendRes : Nat → Option GoError) (oc ec : Bool) (picks : List Pick) :
    ∀ k oo eo outs errs, (oo = false → outs = []) → (eo = false → errs = []) →
      (∀ o ∈ outs, o ≠ []) → (∀ e ∈ errs, e ≠ []) →
      (muxWorker sendRes oc ec k oo eo outs errs picks).ret = some none →
      (muxWorker sendRes oc ec k oo eo outs errs picks).oo = false ∧
      (muxWorker sendRes oc ec k oo eo outs errs picks).eo = false ∧
      (oo = true → oc = true) ∧ (eo = true → ec = true) ∧
      stdoutChunks (muxWorker sendRes oc ec k oo eo outs errs picks).sent = outs ∧
      stderrChunks (muxWorker sendRes oc ec k oo eo outs errs picks).sent = errs ∧
      (muxWorker sendRes oc ec k oo eo outs errs picks).sent.length
        = outs.length + errs.length ∧
      (muxWorker sendRes oc ec k oo eo outs errs picks).gotOut = outs.length ∧
      (muxWorker sendRes oc ec k oo eo outs errs picks).gotErr = errs.length := by
  have base : ∀ oo eo outs errs, (oo = false → outs = []) → (eo = false → errs = []) →
      ¬ (oo || eo) = true →
      oo = false ∧ eo = false ∧ (oo = true → oc = true) ∧ (eo = true → ec = true) ∧
      stdoutChunks [] = outs ∧ stderrChunks [] = errs ∧
      ([] : List CmdProgress).length = outs.length + errs.length ∧
      0 = outs.length ∧ 0 = errs.length := by
    intro oo eo outs errs ho he h
    have h1 : oo = false := by cases oo <;> simp_all
    have h2 : eo = false := by cases eo <;> simp_all
    subst h1 h2
    rw [ho rfl, he rfl]
    simp [stdoutChunks, stderrChunks]
  induction picks with
  | nil =>
    intro k oo eo outs errs ho he _ _
    unfold muxWorker
    by_cases h : (oo || eo) = true
    · rw [if_pos h]
      intro hr
      cases hr
    · rw [if_neg h]
      intro _
      exact base oo eo outs errs ho he h
  | cons p ps ih =>
    intro k oo eo outs errs ho he hno hne
    unfold muxWorker
    by_cases h : (oo || eo) = true
    · rw [if_pos h]
      cases p with
      | out =>
        cases outs with
        | nil =>
          cases oc with
          | true =>
            simp only [if_true]
            intro hr
            obtain ⟨a1, a2, _, a4, a5, a6, a7, a8, a9⟩ :=
              ih k false eo [] errs (fun _ => rfl) he hno hne hr
            exact ⟨a1, a2, fun _ => trivial, a4, a5, a6, a7, a8, a9⟩
          | false =>
            simp only [Bool.false_eq_true, if_false]
            intro hr
            obtain ⟨a1, a2, a3, a4, a5, a6, a7, a8, a9⟩ := ih k oo eo [] errs ho he hno hne hr
            exact ⟨a1, a2, fun hc => Bool.noConfusion (a3 hc), a4, a5, a6, a7, a8, a9⟩
        | cons o outs1 =>
          have ho1 : o ≠ [] := hno o (List.mem_cons_self _ _)
          cases hs : sendRes k with
          | some e =>
            simp only [hs]
            intro hr
            cases hr
          | none =>
            simp only [hs]
            intro hr
            obtain ⟨a1, a2, a3, a4, a5, a6, a7, a8, a9⟩ :=
              ih (k + 1) true eo outs1 errs (fun hc => by cases hc) he
                (fun x hx => hno x (List.mem_cons_of_mem _ hx)) hne hr
            refine ⟨a1, a2, fun _ => a3 rfl, a4, ?_, ?_, ?_, ?_, a9⟩
            · simp [stdoutChunks, ho1] at a5 ⊢
              exact a5
            · simp [stderrChunks] at a6 ⊢
              exact a6
            · simp only [List.length_cons, a7]
              omega
            · simp only [a8, List.length_cons]
      | err =>
        cases errs with
        | nil =>
          cases ec with
          | true =>
            simp only [if_true]
            intro hr
            obtain ⟨a1, a2, a3, _, a5, a6, a7, a8, a9⟩ :=
              ih k oo false outs [] ho (fun _ => rfl) hno hne hr
            exact ⟨a1, a2, a3, fun _ => trivial, a5, a6, a7, a8, a9⟩
          | false =>
            simp only [Bool.false_eq_true, if_false]
            intro hr
            obtain ⟨a1, a2, a3, a4, a5, a6, a7, a8, a9⟩ := ih k oo eo outs [] ho he hno hne hr
            exact ⟨a1, a2, a3, fun hc => Bool.noConfusion (a4 hc), a5, a6, a7, a8, a9⟩
        | cons e errs1 =>
          have he1 : e ≠ [] := hne e (List.mem_cons_self _ _)
          cases hs : sendRes k with
          | some e =>
            simp only [hs]
            intro hr
            cases hr
          | none =>
            simp only [hs]
            intro hr
            obtain ⟨a1, a2, a3, a4, a5, a6, a7, a8, a9⟩ :=
              ih (k + 1) oo true outs errs1 ho (fun hc => by cases hc) hno
                (fun x hx => hne x (List.mem_cons_of_mem _ hx)) hr
            refine ⟨a1, a2, a3, fun _ => a4 rfl, ?_, ?_, ?_, a8, ?_⟩
            · simp [stdoutChunks] at a5 ⊢
              exact a5
            · simp [stderrChunks, he1] at a6 ⊢
              exact a6
            · simp only [List.length_cons, a7]
              omega
            · simp only [a9, List.length_cons]
    · rw [if_neg h]
      intro _
      exact base oo eo outs errs ho he h

theorem muxWorker_sends_ok (sendRes : Nat → Option GoError) (hs : ∀ j, sendRes j = none)
    (oc ec : Bool) (picks : List Pick) :
    ∀ k oo eo outs errs,
      (muxWorker sendRes oc ec k oo eo outs errs picks).ret = none ∨
      (muxWorker sendRes oc ec k oo eo outs errs picks).ret = some none := by
  induction picks with
  | nil =>
    intro k oo eo outs errs
    unfold muxWorker
    by_cases h : (oo || eo) = true
    · rw [if_pos h]; exact Or.inl rfl
    · rw [if_neg h]; exact Or.inr rfl
  | cons p ps ih =>
    intro k oo eo outs errs
    unfold muxWorker
    by_cases h : (oo || eo) = true
    · rw [if_pos h]
      cases p with
      | out =>
        cases outs with
        | nil =>
          cases oc with
          | true => simpa using ih k false eo [] errs
          | false => simpa using ih k oo eo [] errs
        | cons o outs1 =>
          simp only [hs k]
          exact ih (k + 1) true eo outs1 errs
      | err =>
        cases errs with
        | nil =>
          cases ec with
          | true => simpa using ih k oo false outs []
          | false => simpa using ih k oo eo outs []
        | cons e errs1 =>
          simp only [hs k]
          exact ih (k + 1) oo true outs errs1
    · rw [if_neg h]; exact Or.inr rfl

theorem muxWorker_isData (sendRes : Nat → Option GoError) (oc ec : Bool)
    (picks : List Pick) :
    ∀ k oo eo outs errs, (∀ o ∈ outs, o ≠ []) → (∀ e ∈ errs, e ≠ []) →
      ∀ m ∈ (muxWorker sendRes oc ec k oo eo outs errs picks).sent, m.isData := by
  induction picks with
  | nil =>
    intro k oo eo outs errs _ _ m hm
    unfold muxWorker at hm
    by_cases h : (oo || eo) = true
    · rw [if_pos h] at hm; simp at hm
    · rw [if_neg h] at hm; simp at hm
  | cons p ps ih =>
    intro k oo eo outs errs hno hne m hm
    unfold muxWorker at hm
    by_cases h : (oo || eo) = true
    · rw [if_pos h] at hm
      cases p with
      | out =>
        cases outs with
        | nil =>
          cases oc with
          | true => exact ih k false eo [] errs hno hne m (by simpa using hm)
          | false => exact ih k oo eo [] errs hno hne m (by simpa using hm)
        | cons o outs1 =>
          have ho1 : o ≠ [] := hno o (List.mem_cons_self _ _)
          have hd : CmdProgress.isData { stdout := o } := ⟨rfl, Or.inl ⟨ho1, rfl⟩⟩
          cases hs : sendRes k with
          | some e =>
            simp only [hs, List.mem_singleton] at hm
            rw [hm]; exact hd
          | none =>
            simp only [hs, List.mem_cons] at hm
            rcases hm with hm | hm
            · rw [hm]; exact hd
            · exact ih (k + 1) true eo outs1 errs
                (fun x hx => hno x (List.mem_cons_of_mem _ hx)) hne m hm
      | err =>
        cases errs with
        | nil =>
          cases ec with
          | true => exact ih k oo false outs [] hno hne m (by simpa using hm)
          | false => exact ih k oo eo outs [] hno hne m (by simpa using hm)
        | cons e errs1 =>
          have he1 : e ≠ [] := hne e (List.mem_cons_self _ _)
          have hd : CmdProgress.isData { stderr := e } := ⟨rfl, Or.inr ⟨rfl, he1⟩⟩
          cases hs : sendRes k with
          | some e =>
            simp only [hs, List.mem_singleton] at hm
            rw [hm]; exact hd
          | none =>
            simp only [hs, List.mem_cons] at hm
            rcases hm with hm | hm
            · rw [hm]; exact hd
            · exact ih (k + 1) oo true outs errs1 hno
                (fun x hx => hne x (List.mem_cons_of_mem _ hx)) m hm
    · rw [if_neg h] at hm; simp at hm

theorem muxWorker_returns (sendRes : Nat → Option GoError) (hs : ∀ j, sendRes j = none)
    (picks : List Pick) :
    ∀ k oo eo outs errs, (oo = false → outs = []) → (eo = false → errs = []) →
      outs.length + (if oo then 1 else 0) ≤ picks.count Pick.out →
      errs.length + (if eo then 1 else 0) ≤ picks.count Pick.err →
      (muxWorker sendRes true true k oo eo outs errs picks).ret = some none := by
  induction picks with
  | nil =>
    intro k oo eo outs errs _ _ h1 h2
    have ho : oo = false := by cases oo <;> simp_all
    have he : eo = false := by cases eo <;> simp_all
    subst ho he
    rfl
  | cons p ps ih =>
    intro k oo eo outs errs ho he h1 h2
    unfold muxWorker
    by_cases h : (oo || eo) = true
    · rw [if_pos h]
      cases p with
      | out =>
        have c1 : (Pick.out :: ps).count Pick.out = ps.count Pick.out + 1 := by simp
        have c2 : (Pick.out :: ps).count Pick.err = ps.count Pick.err := by
          rw [List.count_cons]; simp
        rw [c1] at h1
        rw [c2] at h2
        cases outs with
        | nil =>
          simp only [if_true]
          exact ih k false eo [] errs (fun _ => rfl) he (by simp) h2
        | cons o outs1 =>
          simp only [hs k]
          refine ih (k + 1) true eo outs1 errs (fun hc => by cases hc) he ?_ h2
          have hoo : oo = true := by
            cases oo
            · exact absurd (ho rfl) (by simp)
            · rfl
          subst hoo
          simp only [List.length_cons, if_true] at h1 ⊢
          omega
      | err =>
        have c1 : (Pick.err :: ps).count Pick.err = ps.count Pick.err + 1 := by simp
        have c2 : (Pick.err :: ps).count Pick.out = ps.count Pick.out := by
          rw [List.count_cons]; simp
        rw [c1] at h2
        rw [c2] at h1
        cases errs with
        | nil =>
          simp only [if_true]
          exact ih k oo false outs [] ho (fun _ => rfl) h1 (by simp)
        | cons e errs1 =>
          simp only [hs k]
          refine ih (k + 1) oo true outs errs1 ho (fun hc => by cases hc) h1 ?_
          have heo : eo = true := by
            cases eo
            · exact absurd (he rfl) (by simp)
            · rfl
          subst heo
          simp only [List.length_cons, if_true] at h2 ⊢
          omega
    · rw [if_neg h]

/-- C7: for every pair of chunk sequences handed off on the stdout and stderr
channels and every interleaving chosen by the select, when every send succeeds the
multiplexer worker of Exec sends exactly one message per handed-off chunk, tagged
with its originating stream and with content equal to the chunk written by the copy
loop, so that the concatenation of the stdout-tagged payloads is the bytes read from
the child's stdout and likewise for stderr; it returns only after both channels
have been observed closed, and it does return under every schedule that takes each
case of the select often enough. -/
theorem exec_multiplexer_output (sendRes : Nat → Option GoError)
    (outReads errReads : List ReadRes) (picks : List Pick) (hs : ∀ j, sendRes j = none) :
    (copyWorker outReads).handed
      = ((uptoErr outReads).filter (fun rd => decide (0 < rd.n))).map ReadRes.data ∧
    (copyWorker errReads).handed
      = ((uptoErr errReads).filter (fun rd => decide (0 < rd.n))).map ReadRes.data ∧
    ((execMux sendRes outReads errReads picks).ret ≠ none →
      (execMux sendRes outReads errReads picks).ret = some none ∧
      (execMux sendRes outReads errReads picks).oo = false ∧
      (execMux sendRes outReads errReads picks).eo = false ∧
      (copyWorker outReads).ret.isSome = true ∧ (copyWorker errReads).ret.isSome = true ∧
      stdoutChunks (execMux sendRes outReads errReads picks).sent
        = (copyWorker outReads).handed ∧
      stderrChunks (execMux sendRes outReads errReads picks).sent
        = (copyWorker errReads).handed ∧
      (execMux sendRes outReads errReads picks).sent.length
        = (copyWorker outReads).handed.length + (copyWorker errReads).handed.length ∧
      (∀ m ∈ (execMux sendRes outReads errReads picks).sent, m.isData) ∧
      stdoutBytes (execMux sendRes outReads errReads picks).sent
        = bytesRead (uptoErr outReads) ∧
      stderrBytes (execMux sendRes outReads errReads picks).sent
        = bytesRead (uptoErr errReads)) ∧
    ((copyWorker outReads).ret.isSome = true → (copyWorker errReads).ret.isSome = true →
      (copyWorker outReads).handed.length + 1 ≤ picks.count Pick.out →
      (copyWorker errReads).handed.length + 1 ≤ picks.count Pick.err →
      (execMux sendRes outReads errReads picks).ret = some none) := by
  refine ⟨copyWorker_handed outReads, copyWorker_handed errReads, ?_, ?_⟩
  · intro hret
    have hnil : (execMux sendRes outReads errReads picks).ret = some none := by
      rcases muxWorker_sends_ok sendRes hs (copyWorker outReads).ret.isSome
        (copyWorker errReads).ret.isSome picks 0 true true (copyWorker outReads).handed
        (copyWorker errReads).handed with h | h
      · exact absurd h hret
      · exact h
    obtain ⟨a1, a2, a3, a4, a5, a6, a7, _, _⟩ :=
      muxWorker_nil sendRes (copyWorker outReads).ret.isSome (copyWorker errReads).ret.isSome
        picks 0 true true (copyWorker outReads).handed (copyWorker errReads).handed
        (fun hc => by cases hc) (fun hc => by cases hc) (copyWorker_nonempty outReads)
        (copyWorker_nonempty errReads) hnil
    refine ⟨hnil, a1, a2, a3 rfl, a4 rfl, a5, a6, a7, ?_, ?_, ?_⟩
    · exact muxWorker_isData sendRes _ _ picks 0 true true _ _ (copyWorker_nonempty outReads)
        (copyWorker_nonempty errReads)
    · have h := flatten_filter_nonempty
        ((execMux sendRes outReads errReads picks).sent.map CmdProgress.stdout)
      unfold stdoutBytes
      rw [← h, ← copyWorker_bytes, ← a5]
      rfl
    · have h := flatten_filter_nonempty
        ((execMux sendRes outReads errReads picks).sent.map CmdProgress.stderr)
      unfold stderrBytes
      rw [← h, ← copyWorker_bytes, ← a6]
      rfl
  · intro h1 h2 c1 c2
    unfold execMux
    rw [h1, h2]
    exact muxWorker_returns sendRes hs picks 0 true true _ _ (fun hc => by cases hc)
      (fun hc => by cases hc) (by simpa using c1) (by simpa using c2)

/-- Witness of C7: the reads and the schedule of `execExits`. -/
theorem exec_multiplexer_output_witness :
    (execMux (fun _ => none) execExits.outReads execExits.errReads execExits.picks).ret
      = some none ∧
    stdoutBytes (execMux (fun _ => none) execExits.outReads execExits.errReads
      execExits.picks).sent = bytesRead (uptoErr execExits.outReads) ∧
    stderrBytes (execMux (fun _ => none) execExits.outReads execExits.errReads
      execExits.picks).sent = bytesRead (uptoErr execExits.errReads) :=
  have h := exec_multiplexer_output (fun _ => none) execExits.outReads execExits.errReads
    execExits.picks (fun _ => rfl)
  have hr := h.2.2.2 (by decide) (by decide) (by decide) (by decide)
  have hc := h.2.2.1 (by rw [hr]; simp)
  ⟨hr, hc.2.2.2.2.2.2.2.2.2.1, hc.2.2.2.2.2.2.2.2.2.2⟩

/-! ## Exec: the handler -/

theorem execWorkers_sent (env : ExecEnv) :
    (execWorkers env).1 = (execMux env.sendRes env.outReads env.errReads env.picks).sent := by
  unfold execWorkers
  simp only
  split
  · split <;> rfl
  · rfl

theorem execWorkers_isData (env : ExecEnv) : ∀ m ∈ (execWorkers env).1, m.isData := by
  rw [execWorkers_sent]
  exact muxWorker_isData env.sendRes _ _ env.picks 0 true true _ _
    (copyWorker_nonempty env.outReads) (copyWorker_nonempty env.errReads)

theorem execStarted_join (env : ExecEnv) (dir : String) :
    (execStarted env dir).join = (execWorkers env).2 := by
  unfold execStarted
  simp only
  cases h : (execWorkers env).2 with
  | none => rfl
  | some r =>
    cases r with
    | some e => rfl
    | none => cases env.wait with
      | ok => rfl
      | failed e => rfl
      | exitError sys => cases sys <;> rfl

theorem Exec_cases (env : ExecEnv) :
    ((Exec env).sent = [] ∧ (Exec env).join = none ∧ (Exec env).proc = none ∧
      (Exec env).deferred = []) ∨ ∃ dir, Exec env = execStarted env dir := by
  unfold Exec
  cases env.recv with
  | error e => exact Or.inl ⟨rfl, rfl, rfl, rfl⟩
  | ok cmdMsg =>
    simp only
    by_cases hp : cmdMsg.cmd.pipeIn = true
    · rw [if_pos hp]; exact Or.inl ⟨rfl, rfl, rfl, rfl⟩
    · rw [if_neg hp]
      cases env.stdoutPipe with
      | some e => exact Or.inl ⟨rfl, rfl, rfl, rfl⟩
      | none =>
        cases env.stderrPipe with
        | some e => exact Or.inl ⟨rfl, rfl, rfl, rfl⟩
        | none =>
          cases env.start with
          | some e => exact Or.inl ⟨rfl, rfl, rfl, rfl⟩
          | none => exact Or.inr ⟨_, rfl⟩

theorem Exec_of_join (env : ExecEnv) (r : Option GoError) (h : (Exec env).join = some r) :
    ∃ dir, Exec env = execStarted env dir ∧ (execWorkers env).2 = some r := by
  rcases Exec_cases env with ⟨_, hj, _, _⟩ | ⟨dir, hd⟩
  · rw [hj] at h; cases h
  · refine ⟨dir, hd, ?_⟩
    rw [hd, execStarted_join] at h
    exact h

theorem uint32_exitedWith (K : Nat) (hK : K ≤ 255) : uint32 (exitedWith K).ExitStatus = K := by
  have h1 : (K * 256 % 128 == 0) = true := by
    have : K * 256 % 128 = 0 := by omega
    simp [this]
  have h2 : K * 256 / 256 % 256 = K := by omega
  unfold uint32 WaitStatus.ExitStatus WaitStatus.Exited exitedWith
  simp only [h1, if_true, h2]
  omega

theorem execStarted_shape (env : ExecEnv) (dir : String) :
    ∃ tail, (execStarted env dir).sent = (execWorkers env).1 ++ tail ∧
      (∀ m ∈ tail, m.isExit) ∧ tail.length ≤ 1 := by
  unfold execStarted
  simp only
  cases (execWorkers env).2 with
  | none => exact ⟨[], by simp, by simp, by simp⟩
  | some r =>
    cases r with
    | some e => exact ⟨[], by simp, by simp, by simp⟩
    | none =>
      cases env.wait with
      | ok =>
        refine ⟨[{ exitCode := 0 }], rfl, ?_, by simp⟩
        intro m hm
        rw [List.mem_singleton.1 hm]
        exact ⟨rfl, rfl⟩
      | failed e => exact ⟨[], by simp, by simp, by simp⟩
      | exitError sys =>
        cases sys with
        | none => exact ⟨[], by simp, by simp, by simp⟩
        | some stat =>
          refine ⟨[{ exitCode := uint32 stat.ExitStatus }], rfl, ?_, by simp⟩
          intro m hm
          rw [List.mem_singleton.1 hm]
          exact ⟨rfl, rfl⟩

theorem execStarted_deferred (env : ExecEnv) (dir : String) :
    ((execStarted env dir).deferred = [] ∨
      (execStarted env dir).deferred.map Prod.fst = [.release, .kill]) ∧
    ∀ p, (execStarted env dir).proc = some p → p.killed = false := by
  unfold execStarted
  simp only
  cases (execWorkers env).2 with
  | none => simp
  | some r =>
    cases r with
    | some e => simp [runDeferred, Process.Kill, Process.Release]
    | none =>
      cases env.wait with
      | ok => simp [runDeferred, Process.Kill, Process.Release]
      | failed e => simp [runDeferred, Process.Kill, Process.Release]
      | exitError sys =>
        cases sys <;> simp [runDeferred, Process.Kill, Process.Release]

theorem execStarted_join_error (env : ExecEnv) (dir : String) (e : GoError)
    (h : (execWorkers env).2 = some (some e)) :
    (execStarted env dir).sent = (execWorkers env).1 ∧
      (execStarted env dir).outcome = .returned (some e) := by
  unfold execStarted
  simp [h]

theorem execStarted_exit_error (env : ExecEnv) (dir : String) (stat : WaitStatus)
    (h : (execWorkers env).2 = some none) (hw : env.wait = .exitError (some stat)) :
    (execStarted env dir).sent
        = (execWorkers env).1 ++ [{ exitCode := uint32 stat.ExitStatus }] ∧
      (execStarted env dir).outcome = .returned (env.sendRes (execWorkers env).1.length) := by
  unfold execStarted
  simp [h, hw]

theorem execStarted_wait_ok (env : ExecEnv) (dir : String)
    (h : (execWorkers env).2 = some none) (hw : env.wait = .ok) :
    (execStarted env dir).sent = (execWorkers env).1 ++ [{ exitCode := 0 }] ∧
      (execStarted env dir).outcome = .returned (env.sendRes (execWorkers env).1.length) := by
  unfold execStarted
  simp [h, hw]

theorem execStarted_wait_failed (env : ExecEnv) (dir : String) (e : GoError)
    (h : (execWorkers env).2 = some none) (hw : env.wait = .failed e) :
    (execStarted env dir).sent = (execWorkers env).1 ∧
      (execStarted env dir).outcome = .returned (some e) := by
  unfold execStarted
  simp [h, hw]

/-- C5: for every Exec invocation whose three workers all succeed (the join returns
nil) and whose child exits normally with status K, 0 <= K <= 255, the messages sent
are zero or more stdout/stderr data messages followed by exactly one exitCode
message with exitCode = K, which is the last message; whenever the join returns an
error only data messages are sent, no exitCode message; and in every invocation at
most one message that is not a data message is sent, after all data messages. -/
theorem exec_exit_code (env : ExecEnv) (K : Nat) (hK : K ≤ 255)
    (hjoin : (Exec env).join = some none) (hwait : env.wait = waitOfExit K) :
    (∃ data, (Exec env).sent = data ++ [{ exitCode := K }] ∧ (∀ m ∈ data, m.isData) ∧
      (Exec env).outcome = .returned (env.sendRes data.length)) ∧
    (∀ env1 e, (Exec env1).join = some (some e) →
      (∀ m ∈ (Exec env1).sent, m.isData) ∧ (Exec env1).outcome = .returned (some e)) ∧
    (∀ env1, ∃ data tail, (Exec env1).sent = data ++ tail ∧ (∀ m ∈ data, m.isData) ∧
      (∀ m ∈ tail, m.isExit) ∧ tail.length ≤ 1) := by
  refine ⟨?_, ?_, ?_⟩
  · obtain ⟨dir, hd, hw⟩ := Exec_of_join env none hjoin
    rw [hd]
    refine ⟨(execWorkers env).1, ?_, execWorkers_isData env, ?_⟩
    · by_cases h0 : K = 0
      · subst h0
        exact (execStarted_wait_ok env dir hw (by rw [hwait]; rfl)).1
      · have hx : env.wait = .exitError (some (exitedWith K)) := by
          rw [hwait]; unfold waitOfExit; rw [if_neg h0]
        rw [(execStarted_exit_error env dir _ hw hx).1, uint32_exitedWith K hK]
    · by_cases h0 : K = 0
      · subst h0
        exact (execStarted_wait_ok env dir hw (by rw [hwait]; rfl)).2
      · have hx : env.wait = .exitError (some (exitedWith K)) := by
          rw [hwait]; unfold waitOfExit; rw [if_neg h0]
        exact (execStarted_exit_error env dir _ hw hx).2
  · intro env1 e hj
    obtain ⟨dir, hd, hw⟩ := Exec_of_join env1 (some e) hj
    rw [hd]
    obtain ⟨h1, h2⟩ := execStarted_join_error env1 dir e hw
    rw [h1]
    exact ⟨execWorkers_isData env1, h2⟩
  · intro env1
    rcases Exec_cases env1 with ⟨hs, _, _, _⟩ | ⟨dir, hd⟩
    · exact ⟨[], [], by simp [hs], by simp, by simp, by simp⟩
    · obtain ⟨tail, h1, h2, h3⟩ := execStarted_shape env1 dir
      exact ⟨(execWorkers env1).1, tail, by rw [hd, h1], execWorkers_isData env1, h2, h3⟩

/-- Witness of C5: the invocation `execExits`, whose child exits with status 137. -/
theorem exec_exit_code_witness :
    (Exec execExits).join = some none ∧
    (∃ data, (Exec execExits).sent = data ++ [{ exitCode := 137 }] ∧
      (∀ m ∈ data, m.isData) ∧
      (Exec execExits).outcome = .returned (execExits.sendRes data.length)) :=
  ⟨by decide, (exec_exit_code execExits 137 (by decide) (by decide) rfl).1⟩

/-- C6 (as amended): for every Exec invocation whose join succeeded and whose wait
result is an exit error with a wait status, also when the child was terminated by
a signal and the status has no exit code (ExitStatus() = -1), Exec does not return
the wait error: after the data messages it sends exactly one exitCode message,
carrying `uint32(ExitStatus())`, and returns the result of that send.  A wait error
that is not an exit error is returned as the error of the RPC, with no exitCode
message. -/
theorem exec_exit_error_reported (env : ExecEnv) (stat : WaitStatus)
    (hjoin : (Exec env).join = some none) (hwait : env.wait = .exitError (some stat)) :
    (∃ data, (Exec env).sent = data ++ [{ exitCode := uint32 stat.ExitStatus }] ∧
      (∀ m ∈ data, m.isData) ∧
      (Exec env).outcome = .returned (env.sendRes data.length)) ∧
    (∀ env1 e, (Exec env1).join = some none → env1.wait = .failed e →
      (∀ m ∈ (Exec env1).sent, m.isData) ∧ (Exec env1).outcome = .returned (some e)) := by
  refine ⟨?_, ?_⟩
  · obtain ⟨dir, hd, hw⟩ := Exec_of_join env none hjoin
    rw [hd]
    obtain ⟨h1, h2⟩ := execStarted_exit_error env dir stat hw hwait
    exact ⟨(execWorkers env).1, h1, execWorkers_isData env, h2⟩
  · intro env1 e hj hf
    obtain ⟨dir, hd, hw⟩ := Exec_of_join env1 none hj
    rw [hd]
    obtain ⟨h1, h2⟩ := execStarted_wait_failed env1 dir e hw hf
    rw [h1]
    exact ⟨execWorkers_isData env1, h2⟩

/-- Witness of C6 as amended: the invocation `execSignaled`. -/
theorem exec_exit_error_reported_witness :
    (Exec execSignaled).join = some none ∧
    (∃ data, (Exec execSignaled).sent
        = data ++ [{ exitCode := uint32 (signaledWith 9).ExitStatus }] ∧
      (∀ m ∈ data, m.isData) ∧
      (Exec execSignaled).outcome = .returned (execSignaled.sendRes data.length)) :=
  ⟨by decide, (exec_exit_error_reported execSignaled (signaledWith 9) (by decide) rfl).1⟩

/-- C6 as stated fails: the child of `execSignaled` is terminated by signal 9, its
wait status has no exit code, and Exec sends an exitCode message and returns nil
instead of an error. -/
theorem exec_signal_sends_exit_code :
    execSignaled.wait = .exitError (some (signaledWith 9)) ∧
    (signaledWith 9).ExitStatus = -1 ∧
    (Exec execSignaled).sent = [{ exitCode := 4294967295 }] ∧
    (Exec execSignaled).outcome = .returned none := by
  decide

/-- C9, evaluated on `execSendFails`: the join fails with the send error and Exec
returns it; the deferred calls run with Release first, so that Kill is applied to a
released handle, fails, and leaves the child unkilled.  The same holds on every
return path: whenever the deferred calls run, Release runs before Kill, and no
invocation ends with the child killed. -/
theorem exec_kill_after_release :
    (Exec execSendFails).join = some (some (.other "transport is closing")) ∧
    (Exec execSendFails).outcome = .returned (some (.other "transport is closing")) ∧
    (Exec execSendFails).deferred
      = [(.release, none), (.kill, some (.other "os: process already released"))] ∧
    (Exec execSendFails).proc
      = some { released := true, done := false, killed := false } ∧
    (∀ env, (Exec env).deferred = [] ∨
      (Exec env).deferred.map Prod.fst = [.release, .kill]) ∧
    (∀ env p, (Exec env).proc = some p → p.killed = false) := by
  refine ⟨by decide, by decide, by decide, by decide, ?_, ?_⟩
  · intro env
    rcases Exec_cases env with ⟨_, _, _, hn⟩ | ⟨dir, hd⟩
    · exact Or.inl hn
    · rw [hd]
      exact (execStarted_deferred env dir).1
  · intro env p hp
    rcases Exec_cases env with ⟨_, _, hn, _⟩ | ⟨dir, hd⟩
    · rw [hn] at hp; cases hp
    · rw [hd] at hp
      exact (execStarted_deferred env dir).2 p hp

/-! ## Forward: proofs -/

/-- C8: for every first Forward message, Forward fails with an InvalidArgument
condition and makes no dial attempt if and only if the kind is not one of TCP, UDP,
UNIX; otherwise the dialer is called exactly once with network "tcp", "udp" or
"unix" respectively and the address of the message, and a dial failure is returned
as the error of the RPC without starting the forwarder. -/
theorem forward_kind_checked (env : ForwardEnv) (fwd : ForwardMessage)
    (hrecv : env.recv = .ok fwd) :
    (((∃ e, (Forward env).outcome = .returned (some e) ∧
          statusCode (some e) = .InvalidArgument) ∧ (Forward env).dials = []) ↔
        (fwd.kind ≠ .TCP ∧ fwd.kind ≠ .UDP ∧ fwd.kind ≠ .UNIX)) ∧
    (fwd.kind = .TCP → (Forward env).dials = [("tcp", fwd.addr)]) ∧
    (fwd.kind = .UDP → (Forward env).dials = [("udp", fwd.addr)]) ∧
    (fwd.kind = .UNIX → (Forward env).dials = [("unix", fwd.addr)]) ∧
    (∀ net e, networkOf fwd.kind = some net → env.dial net fwd.addr = .error e →
      (Forward env).outcome = .returned (some e) ∧ (Forward env).forwarder = false) := by
  have hd : ∀ net, networkOf fwd.kind = some net →
      (Forward env).dials = [(net, fwd.addr)] := by
    intro net hn
    unfold Forward
    simp only [hrecv, hn]
    cases env.dial net fwd.addr with
    | error e => rfl
    | ok conn => by_cases hc : conn.halfCloser = true <;> simp [hc]
  refine ⟨?_, ?_, ?_, ?_, ?_⟩
  · constructor
    · rintro ⟨_, hdial⟩
      refine ⟨?_, ?_, ?_⟩ <;> intro hk
      · rw [hd "tcp" (by rw [hk]; rfl)] at hdial; cases hdial
      · rw [hd "udp" (by rw [hk]; rfl)] at hdial; cases hdial
      · rw [hd "unix" (by rw [hk]; rfl)] at hdial; cases hdial
    · rintro ⟨h1, h2, h3⟩
      have hn : networkOf fwd.kind = none := by
        cases hk : fwd.kind with
        | TCP => exact absurd hk h1
        | UDP => exact absurd hk h2
        | UNIX => exact absurd hk h3
        | unrecognized v => rfl
      unfold Forward
      rw [hrecv]
      simp only [hn]
      exact ⟨⟨.status .InvalidArgument "unsupported network type", rfl, rfl⟩, trivial⟩
  · intro hk; exact hd "tcp" (by rw [hk]; rfl)
  · intro hk; exact hd "udp" (by rw [hk]; rfl)
  · intro hk; exact hd "unix" (by rw [hk]; rfl)
  · intro net e hn he
    unfold Forward
    rw [hrecv]
    simp only [hn, he]
    exact ⟨trivial, trivial⟩

/-- Witness of C8: a TCP request whose dial is refused, and a request of an
unsupported kind. -/
theorem forward_kind_checked_witness :
    ((Forward forwardRefused).dials = [("tcp", "localhost:8080")] ∧
      (Forward forwardRefused).outcome = .returned (some (.other "connection refused")) ∧
      (Forward forwardRefused).forwarder = false) ∧
    ((∃ e, (Forward forwardUnknown).outcome = .returned (some e) ∧
        statusCode (some e) = .InvalidArgument) ∧ (Forward forwardUnknown).dials = []) :=
  have h := forward_kind_checked forwardRefused ⟨.TCP, "localhost:8080"⟩ rfl
  have u := forward_kind_checked forwardUnknown ⟨.unrecognized 7, "localhost:8080"⟩ rfl
  ⟨⟨h.2.1 rfl, h.2.2.2.2 "tcp" (.other "connection refused") rfl rfl⟩,
    u.1.2 ⟨by decide, by decide, by decide⟩⟩

end Waterfall
